import Mathlib

/- Formal model of the Warehouse Staffing Planner core (webapp.py): the
   duration normalizer, the headcount estimator, the workload assignment
   engine (capacity setup, fixed-ownership fulfillment pass, greedy
   preference-ordered pass), and the Shift 1 carryover conversion.
   Real-valued quantities (Python floats) are modelled as rationals and
   Python ints as integers. -/

namespace Planner

/-- The two fungible task kinds handled by the greedy allocator (the
strings "putaway" and "stock_request" in the source). -/
inductive TaskType where
  | putaway
  | stock_request
deriving DecidableEq

/-- Python int() applied to a real number: truncation toward zero. -/
def pyint (q : ℚ) : Int := if q < 0 then ⌈q⌉ else ⌊q⌋

/-- webapp.py calculate_headcount_recommendation. -/
def calculate_headcount_recommendation (total_work_minutes shift_minutes target_efficiency : ℚ) : Int :=
  if shift_minutes = 0 ∨ target_efficiency = 0 then 999
  else
    let effective_capacity_per_associate := shift_minutes * (target_efficiency / 100)
    if effective_capacity_per_associate = 0 then 999
    else
      let required_headcount := total_work_minutes / effective_capacity_per_associate
      pyint required_headcount + (if (pyint required_headcount : ℚ) < required_headcount then 1 else 0)

/-- Per-run task time standards (minutes per unit). -/
structure TaskTimes where
  picking_time : ℚ
  putaway_time : ℚ
  stock_request_time : ℚ
deriving DecidableEq

/-- Per-run work volumes; replenishment_items is the insertion-ordered
dict of workcenter item counts. -/
structure WorkVolumes where
  num_putaway : Int
  num_stock_requests : Int
  replenishment_items : List (String × Nat)
deriving DecidableEq

/-- One roster entry as passed into assign_and_balance_workload. -/
structure AssociateInput where
  name : String
  workcenters : List String
  priorities : List TaskType
  overtime_pct : ℚ
deriving DecidableEq

/-- One roster entry after the capacity-setup loop: the input fields plus
the derived capacity fields and the mutable accumulators. -/
structure Associate where
  name : String
  workcenters : List String
  priorities : List TaskType
  overtime_pct : ℚ
  total_work : ℚ
  fulfillment_time : ℚ
  putaway_time : ℚ
  stock_request_time : ℚ
  fulfillment_overage : ℚ
  personal_capacity : ℚ
  personal_shift_minutes : ℚ
deriving DecidableEq

/-- The unassigned_work result record. -/
structure UnassignedWork where
  putaway : Int
  stock_request : Int
  fulfillment_minutes : ℚ
deriving DecidableEq

/-- The carryover payload captured for Shift 2. -/
structure CarryoverPayload where
  num_putaway : Int
  num_stock_requests : Int
  replenishment_items : List (String × ℚ)
deriving DecidableEq

/-- Capacity setup for one associate (first loop of
assign_and_balance_workload). -/
def initAssociate (shift_minutes target_efficiency : ℚ) (a : AssociateInput) : Associate :=
  let personal_shift_minutes := shift_minutes * (1 + a.overtime_pct / 100)
  { name := a.name, workcenters := a.workcenters, priorities := a.priorities,
    overtime_pct := a.overtime_pct,
    total_work := 0, fulfillment_time := 0, putaway_time := 0, stock_request_time := 0,
    fulfillment_overage := 0,
    personal_capacity := personal_shift_minutes * (target_efficiency / 100),
    personal_shift_minutes := personal_shift_minutes }

/-- Python enumerate over the roster: each entry paired with its index,
starting at n. -/
def idxPairs (n : Nat) : List Associate → List (Nat × Associate)
  | [] => []
  | a :: rest => (n, a) :: idxPairs (n + 1) rest

/-- The wc_ownership map of assign_and_balance_workload: for each roster
index i in order, one entry i per occurrence of the workcenter in that
associate's workcenters list. -/
def wcOwners (assocs : List Associate) (wc : String) : List Nat :=
  (idxPairs 0 assocs).flatMap
    (fun p => (p.2.workcenters.filter (fun w => decide (w = wc))).map (fun _ => p.1))

/-- Mutation of the roster entry at one index (Python mutates the shared
dict held by the list). -/
def updateAt (f : Associate → Associate) : Nat → List Associate → List Associate
  | _, [] => []
  | 0, a :: rest => f a :: rest
  | n + 1, a :: rest => a :: updateAt f n rest

/-- associates[index]["fulfillment_time"] += work_time_per_owner. -/
def addFul (q : ℚ) (a : Associate) : Associate :=
  { a with fulfillment_time := a.fulfillment_time + q }

/-- One iteration of the replenishment loop: if the workcenter has owners,
add items * picking_time / ownerCount to each owner's fulfillment_time
(an index listed twice among the owners receives the share twice, exactly
as the source's append/loop does). -/
def applyZone (tt : TaskTimes) (owned : String → List Nat) (acc : List Associate) (e : String × Nat) : List Associate :=
  let owners := owned e.1
  if owners = [] then acc
  else owners.foldl
    (fun l i => updateAt (addFul (((e.2 : ℚ) * tt.picking_time) / (owners.length : ℚ))) i l) acc

/-- The fixed-ownership pass: fold the replenishment items over the
roster, ownership computed once from the incoming roster (workcenter
lists are never mutated, as in the source). -/
def anchorPhase (tt : TaskTimes) (vols : WorkVolumes) (assocs : List Associate) : List Associate :=
  vols.replenishment_items.foldl (applyZone tt (wcOwners assocs)) assocs

/-- Second per-associate loop: total_work := fulfillment_time; record any
overage above personal capacity and return the summed overflow minutes. -/
def finalizeAnchor : List Associate → List Associate × ℚ
  | [] => ([], 0)
  | a :: rest =>
    let a1 := { a with total_work := a.fulfillment_time }
    let over : ℚ :=
      if a1.personal_capacity < a1.total_work then a1.total_work - a1.personal_capacity else 0
    let a2 :=
      if a1.personal_capacity < a1.total_work then
        { a1 with fulfillment_overage := a1.total_work - a1.personal_capacity }
      else a1
    let r := finalizeAnchor rest
    (a2 :: r.1, over + r.2)

/-- Pool of a task kind in the unassigned-work record. -/
def poolOf (u : UnassignedWork) : TaskType → Int
  | .putaway => u.putaway
  | .stock_request => u.stock_request

/-- Unit minute cost of a task kind. -/
def unitOf (tt : TaskTimes) : TaskType → ℚ
  | .putaway => tt.putaway_time
  | .stock_request => tt.stock_request_time

/-- Inner scan of one associate's priorities: the first task kind whose
pool is still positive. -/
def firstTask (u : UnassignedWork) : List TaskType → Option TaskType
  | [] => none
  | t :: rest => if 0 < poolOf u t then some t else firstTask u rest

/-- Assignment of one unit: add the unit cost to the matching accumulator
and to total_work. -/
def applyTask (tt : TaskTimes) : TaskType → Associate → Associate
  | .putaway, a =>
    { a with putaway_time := a.putaway_time + tt.putaway_time,
             total_work := a.total_work + tt.putaway_time }
  | .stock_request, a =>
    { a with stock_request_time := a.stock_request_time + tt.stock_request_time,
             total_work := a.total_work + tt.stock_request_time }

/-- Decrement the pool of the assigned task kind by one. -/
def decPool : TaskType → UnassignedWork → UnassignedWork
  | .putaway, u => { u with putaway := u.putaway - 1 }
  | .stock_request, u => { u with stock_request := u.stock_request - 1 }

/-- Comparison realizing Python's stable sort by total_work applied to the
index-ascending eligible list: ascending total_work, ties broken by
roster index. -/
def passLe (x y : Nat × Associate) : Prop :=
  x.2.total_work < y.2.total_work ∨ (x.2.total_work = y.2.total_work ∧ x.1 ≤ y.1)

instance : DecidableRel passLe := fun x y =>
  inferInstanceAs (Decidable (x.2.total_work < y.2.total_work ∨ (x.2.total_work = y.2.total_work ∧ x.1 ≤ y.1)))

instance : IsTotal (Nat × Associate) passLe where
  total x y := by
    rcases lt_trichotomy x.2.total_work y.2.total_work with h | h | h
    · exact Or.inl (Or.inl h)
    · rcases Nat.le_total x.1 y.1 with h1 | h1
      · exact Or.inl (Or.inr ⟨h, h1⟩)
      · exact Or.inr (Or.inr ⟨h.symm, h1⟩)
    · exact Or.inr (Or.inl h)

instance : IsTrans (Nat × Associate) passLe where
  trans x y z := by
    rintro (h1 | ⟨h1, h1i⟩) (h2 | ⟨h2, h2i⟩)
    · exact Or.inl (h1.trans h2)
    · exact Or.inl (h2 ▸ h1)
    · exact Or.inl (h1 ▸ h2)
    · exact Or.inr ⟨h1.trans h2, h1i.trans h2i⟩

/-- Eligible associates paired with their roster index: total_work
strictly below personal_capacity. -/
def eligiblePairs (assocs : List Associate) : List (Nat × Associate) :=
  (idxPairs 0 assocs).filter (fun p => decide (p.2.total_work < p.2.personal_capacity))

/-- sorted(eligible, key total_work): Python's sort is stable and the
eligible list is index-ascending, so the result is the sort by the pair
(total_work, roster index). -/
def eligibleSorted (assocs : List Associate) : List (Nat × Associate) :=
  List.insertionSort passLe (eligiblePairs assocs)

/-- Outer scan of one pass: the first sorted eligible associate having an
assignable task kind, together with that kind. -/
def pickAssignment (u : UnassignedWork) : List (Nat × Associate) → Option (Nat × TaskType)
  | [] => none
  | p :: rest =>
    match firstTask u p.2.priorities with
    | some t => some (p.1, t)
    | none => pickAssignment u rest

/-- Body of one pass of the greedy while loop: place one unit, or return
none when task_assigned_this_pass stays False (also when the eligible
list is empty). -/
def greedyPass (tt : TaskTimes) (s : List Associate × UnassignedWork) : Option (List Associate × UnassignedWork) :=
  match pickAssignment s.2 (eligibleSorted s.1) with
  | none => none
  | some (j, t) => some (updateAt (applyTask tt t) j s.1, decPool t s.2)

/-- Fuel bound for the while loop: at most one pass per remaining pool
unit. -/
def poolFuel (u : UnassignedWork) : Nat := u.putaway.toNat + u.stock_request.toNat

/-- The greedy while loop, fuelled; the fuel passed by
assign_and_balance_workload reaches the loop's fixed point. -/
def greedyLoop (tt : TaskTimes) : Nat → List Associate × UnassignedWork → List Associate × UnassignedWork
  | 0, s => s
  | fuel + 1, s =>
    if 0 < s.2.putaway ∨ 0 < s.2.stock_request then
      match greedyPass tt s with
      | some s1 => greedyLoop tt fuel s1
      | none => s
    else s

/-- The capacity-setup loop over the whole roster. -/
def setupPhase (roster : List AssociateInput) (shift_minutes target_efficiency : ℚ) : List Associate :=
  roster.map (initAssociate shift_minutes target_efficiency)

/-- State after setup, fixed-ownership allocation and overage accounting,
just before the greedy loop: the roster plus the unassigned_work record
initialized from the requested volumes. -/
def anchorState (roster : List AssociateInput) (vols : WorkVolumes) (tt : TaskTimes) (shift_minutes target_efficiency : ℚ) : List Associate × UnassignedWork :=
  let f := finalizeAnchor (anchorPhase tt vols (setupPhase roster shift_minutes target_efficiency))
  (f.1, { putaway := vols.num_putaway, stock_request := vols.num_stock_requests,
          fulfillment_minutes := 0 + f.2 })

/-- webapp.py assign_and_balance_workload. -/
def assign_and_balance_workload (roster : List AssociateInput) (vols : WorkVolumes) (tt : TaskTimes) (shift_minutes target_efficiency : ℚ) : List Associate × UnassignedWork :=
  let s := anchorState roster vols tt shift_minutes target_efficiency
  greedyLoop tt (poolFuel s.2) s

/-- Observation of the loop: the number of passes in which the pool of the
given task kind decreases, i.e. in which one unit of that kind is
placed. -/
def placedCount (tt : TaskTimes) (t : TaskType) : Nat → List Associate × UnassignedWork → Nat
  | 0, _ => 0
  | fuel + 1, s =>
    if 0 < s.2.putaway ∨ 0 < s.2.stock_request then
      match greedyPass tt s with
      | some s1 => (if poolOf s1.2 t < poolOf s.2 t then 1 else 0) + placedCount tt t fuel s1
      | none => 0
    else 0

/-- The Shift 1 carryover block of the generate-plan handler: the two
pools carry over unchanged; unplaced fulfillment minutes are converted
back to item units and spread over the workcenters in proportion to the
period's requested items, dropping shares not above 0.01. The source
accumulates into a freshly emptied dict whose keys (the workcenter names
of the volumes dict) are unique, so each kept workcenter is inserted
exactly once. -/
def carryover (u : UnassignedWork) (vols : WorkVolumes) (tt : TaskTimes) : CarryoverPayload :=
  let items : List (String × ℚ) :=
    if 0 < tt.picking_time then
      let unfulfilled_total := u.fulfillment_minutes / tt.picking_time
      let total_items : Nat := (vols.replenishment_items.map (fun e => e.2)).sum
      if 0 < total_items then
        vols.replenishment_items.filterMap (fun e =>
          let share := unfulfilled_total * ((e.2 : ℚ) / (total_items : ℚ))
          if 1 / 100 < share then some (e.1, share) else none)
      else []
    else []
  { num_putaway := u.putaway, num_stock_requests := u.stock_request,
    replenishment_items := items }

/- Specification-side helpers: measurements on the model used to state
   and prove the properties; they do not alter the model. -/

/-- Number of occurrences of an index in an owner list. -/
def occ (k : Nat) (l : List Nat) : Nat := (l.filter (fun i => decide (i = k))).length

/-- Number of occurrences of a workcenter in a workcenter list. -/
def occWc (wc : String) (ws : List String) : Nat := (ws.filter (fun w => decide (w = wc))).length

/-- Anchor minutes contributed by one replenishment entry to the roster
index k. -/
def zoneContrib (tt : TaskTimes) (owned : String → List Nat) (k : Nat) (e : String × Nat) : ℚ :=
  let owners := owned e.1
  if owners = [] then 0
  else (occ k owners : ℚ) * (((e.2 : ℚ) * tt.picking_time) / (owners.length : ℚ))

/-- Effect of the overage-accounting loop on one associate. -/
def finishA (a : Associate) : Associate :=
  let a1 := { a with total_work := a.fulfillment_time }
  if a1.personal_capacity < a1.total_work then
    { a1 with fulfillment_overage := a1.total_work - a1.personal_capacity }
  else a1

/-- Overflow minutes contributed by one associate in the
overage-accounting loop. -/
def overF (a : Associate) : ℚ :=
  if a.personal_capacity < a.fulfillment_time then a.fulfillment_time - a.personal_capacity else 0

/-- The accumulator field matching a task kind. -/
def accumOf (t : TaskType) (a : Associate) : ℚ :=
  match t with
  | .putaway => a.putaway_time
  | .stock_request => a.stock_request_time

/- Infrastructure lemmas. -/

lemma updateAt_length (f : Associate → Associate) : ∀ (n : Nat) (l : List Associate),
    (updateAt f n l).length = l.length := by
  intro n l
  induction l generalizing n with
  | nil => cases n <;> simp [updateAt]
  | cons a rest ih => cases n <;> simp [updateAt, ih]

lemma getElem?_updateAt_self (f : Associate → Associate) : ∀ (n : Nat) (l : List Associate),
    (updateAt f n l)[n]? = (l[n]?).map f := by
  intro n l
  induction l generalizing n with
  | nil => cases n <;> simp [updateAt]
  | cons a rest ih => cases n <;> simp [updateAt, ih]

lemma getElem?_updateAt_ne (f : Associate → Associate) {n k : Nat} (h : k ≠ n) :
    ∀ (l : List Associate), (updateAt f n l)[k]? = l[k]? := by
  intro l
  induction l generalizing n k with
  | nil => cases n <;> simp [updateAt]
  | cons a rest ih =>
    cases n with
    | zero =>
      cases k with
      | zero => exact absurd rfl h
      | succ k => simp [updateAt]
    | succ n =>
      cases k with
      | zero => simp [updateAt]
      | succ k => simpa [updateAt] using ih (fun hk => h (by simp [hk]))

lemma sum_map_updateAt (f : Associate → Associate) (g : Associate → ℚ) :
    ∀ (n : Nat) (l : List Associate),
    ((updateAt f n l).map g).sum = (l.map g).sum + ((l[n]?).elim 0 (fun a => g (f a) - g a)) := by
  intro n l
  induction l generalizing n with
  | nil => cases n <;> simp [updateAt]
  | cons a rest ih =>
    cases n with
    | zero => simp [updateAt]; ring
    | succ n => simp [updateAt, ih]; ring

lemma mem_idxPairs (p : Nat × Associate) : ∀ (l : List Associate) (n : Nat),
    p ∈ idxPairs n l ↔ n ≤ p.1 ∧ l[p.1 - n]? = some p.2 := by
  intro l
  induction l with
  | nil => intro n; simp [idxPairs]
  | cons a rest ih =>
    intro n
    simp only [idxPairs, List.mem_cons, ih]
    constructor
    · rintro (rfl | ⟨h1, h2⟩)
      · refine ⟨le_refl _, ?_⟩
        simp
      · refine ⟨by omega, ?_⟩
        have : p.1 - n = (p.1 - (n + 1)) + 1 := by omega
        rw [this, List.getElem?_cons_succ]
        exact h2
    · rintro ⟨h1, h2⟩
      rcases Nat.eq_or_lt_of_le h1 with h | h
      · left
        rw [← h] at h2
        simp only [Nat.sub_self, List.getElem?_cons_zero, Option.some.injEq] at h2
        exact Prod.ext h.symm h2.symm
      · right
        refine ⟨h, ?_⟩
        have : p.1 - n = (p.1 - (n + 1)) + 1 := by omega
        rw [this, List.getElem?_cons_succ] at h2
        exact h2

lemma mem_idxPairs_zero (p : Nat × Associate) (l : List Associate) :
    p ∈ idxPairs 0 l ↔ l[p.1]? = some p.2 := by
  rw [mem_idxPairs]
  simp

lemma occ_append (k : Nat) (l1 l2 : List Nat) : occ k (l1 ++ l2) = occ k l1 + occ k l2 := by
  simp [occ, List.filter_append]

lemma occ_cons (k i : Nat) (l : List Nat) :
    occ k (i :: l) = (if i = k then 1 else 0) + occ k l := by
  by_cases h : i = k <;> simp [occ, List.filter_cons, h, Nat.add_comm]

lemma occWc_cons (wc w : String) (ws : List String) :
    occWc wc (w :: ws) = (if w = wc then 1 else 0) + occWc wc ws := by
  by_cases h : w = wc <;> simp [occWc, List.filter_cons, h, Nat.add_comm]

lemma occ_constMap {α : Type} (k i : Nat) (l : List α) :
    occ k (l.map (fun _ => i)) = if i = k then l.length else 0 := by
  induction l with
  | nil => simp [occ]
  | cons a rest ih =>
    simp only [List.map_cons, occ_cons, ih, List.length_cons]
    by_cases h : i = k <;> simp [h, Nat.add_comm]

lemma occ_wcOwners_aux (wc : String) : ∀ (l : List Associate) (n k : Nat),
    occ k ((idxPairs n l).flatMap
      (fun p => (p.2.workcenters.filter (fun w => decide (w = wc))).map (fun _ => p.1)))
    = if n ≤ k then
        (match l[k - n]? with
         | some a => occWc wc a.workcenters
         | none => 0)
      else 0 := by
  intro l
  induction l with
  | nil =>
    intro n k
    simp only [idxPairs, List.flatMap_nil, List.getElem?_nil]
    split <;> simp [occ]
  | cons a rest ih =>
    intro n k
    simp only [idxPairs, List.flatMap_cons, occ_append, occ_constMap, ih]
    rcases Nat.lt_trichotomy k n with h | h | h
    · rw [if_neg (by omega), if_neg (by omega), if_neg (by omega)]
    · subst h
      rw [if_pos (by omega), if_neg (by omega), if_pos (le_refl _)]
      simp [occWc]
    · rw [if_neg (by omega), if_pos (by omega), if_pos (by omega)]
      have h2 : k - n = (k - (n + 1)) + 1 := by omega
      rw [h2, List.getElem?_cons_succ]
      simp

lemma occ_wcOwners (assocs : List Associate) (wc : String) (k : Nat) :
    occ k (wcOwners assocs wc)
      = match assocs[k]? with
        | some a => occWc wc a.workcenters
        | none => 0 := by
  rw [wcOwners, occ_wcOwners_aux]
  simp

lemma occWc_of_not_mem {wc : String} {ws : List String} (h : wc ∉ ws) : occWc wc ws = 0 := by
  induction ws with
  | nil => simp [occWc]
  | cons w rest ih =>
    simp only [List.mem_cons, not_or] at h
    rw [occWc_cons, if_neg (fun hw => h.1 hw.symm), ih h.2]

lemma occWc_nodup {wc : String} {ws : List String} (h : ws.Nodup) :
    occWc wc ws = if wc ∈ ws then 1 else 0 := by
  induction ws with
  | nil => simp [occWc]
  | cons w rest ih =>
    rcases List.nodup_cons.mp h with ⟨hw, hrest⟩
    rw [occWc_cons, ih hrest]
    by_cases hmem : w = wc
    · subst hmem
      rw [if_pos rfl, if_neg hw, if_pos (List.mem_cons_self _ _)]
    · rw [if_neg hmem]
      by_cases hm2 : wc ∈ rest
      · rw [if_pos hm2, if_pos (List.mem_cons_of_mem _ hm2)]
      · have hnm : wc ∉ (w :: rest) := by
          intro hh
          rcases List.mem_cons.mp hh with h1 | h1
          · exact hmem h1.symm
          · exact hm2 h1
        rw [if_neg hm2, if_neg hnm]

lemma addFul_addFul (x y : ℚ) (a : Associate) : addFul x (addFul y a) = addFul (y + x) a := by
  simp [addFul, add_assoc]

lemma addFul_zero (a : Associate) : addFul 0 a = a := by
  simp [addFul]

lemma addFul_congr {x y : ℚ} (h : x = y) (a : Associate) : addFul x a = addFul y a := by
  rw [h]

lemma ownersFold_getElem? (per : ℚ) : ∀ (owners : List Nat) (l : List Associate) (k : Nat),
    ((owners.foldl (fun l i => updateAt (addFul per) i l) l))[k]?
      = (l[k]?).map (fun a => addFul ((occ k owners : ℚ) * per) a) := by
  intro owners
  induction owners with
  | nil =>
    intro l k
    simp only [List.foldl_nil, occ, List.filter_nil, List.length_nil, Nat.cast_zero, zero_mul]
    cases l[k]? <;> simp [addFul_zero]
  | cons i rest ih =>
    intro l k
    simp only [List.foldl_cons, ih]
    by_cases h : i = k
    · rw [h, getElem?_updateAt_self]
      have hx : per + (occ k rest : ℚ) * per = (occ k (k :: rest) : ℚ) * per := by
        rw [occ_cons, if_pos rfl]
        push_cast
        ring
      cases l[k]? with
      | none => simp
      | some a => simp [addFul_addFul, hx]
    · rw [getElem?_updateAt_ne (addFul per) (fun hk => h hk.symm)]
      rw [occ_cons, if_neg h, Nat.zero_add]

lemma applyZone_getElem? (tt : TaskTimes) (owned : String → List Nat) (l : List Associate)
    (e : String × Nat) (k : Nat) :
    (applyZone tt owned l e)[k]? = (l[k]?).map (addFul (zoneContrib tt owned k e)) := by
  by_cases h : owned e.1 = []
  · simp only [applyZone, zoneContrib, h, eq_self_iff_true, if_true]
    cases l[k]? <;> simp [addFul_zero]
  · simp only [applyZone, zoneContrib]
    rw [if_neg h, if_neg h, ownersFold_getElem?]

lemma anchorFold_getElem? (tt : TaskTimes) (owned : String → List Nat) :
    ∀ (entries : List (String × Nat)) (l : List Associate) (k : Nat),
    (entries.foldl (applyZone tt owned) l)[k]?
      = (l[k]?).map (addFul ((entries.map (zoneContrib tt owned k)).sum)) := by
  intro entries
  induction entries with
  | nil =>
    intro l k
    simp only [List.foldl_nil, List.map_nil, List.sum_nil]
    cases l[k]? <;> simp [addFul_zero]
  | cons e rest ih =>
    intro l k
    simp only [List.foldl_cons, ih, applyZone_getElem?, List.map_cons, List.sum_cons]
    cases l[k]? with
    | none => simp
    | some a => simp [addFul_addFul]

lemma anchorPhase_getElem? (tt : TaskTimes) (vols : WorkVolumes) (assocs : List Associate) (k : Nat) :
    (anchorPhase tt vols assocs)[k]?
      = (assocs[k]?).map
          (addFul ((vols.replenishment_items.map (zoneContrib tt (wcOwners assocs) k)).sum)) := by
  rw [anchorPhase, anchorFold_getElem?]

lemma finalizeAnchor_fst (l : List Associate) : (finalizeAnchor l).1 = l.map finishA := by
  induction l with
  | nil => rfl
  | cons a rest ih =>
    simp only [List.map_cons, ← ih]
    rfl

lemma finalizeAnchor_snd (l : List Associate) : (finalizeAnchor l).2 = (l.map overF).sum := by
  induction l with
  | nil => rfl
  | cons a rest ih =>
    simp only [List.map_cons, List.sum_cons, ← ih]
    rfl

lemma anchorState_getElem? (roster : List AssociateInput) (vols : WorkVolumes) (tt : TaskTimes)
    (sm te : ℚ) (k : Nat) :
    (anchorState roster vols tt sm te).1[k]?
      = (roster[k]?).map (fun r =>
          finishA (addFul
            ((vols.replenishment_items.map
               (zoneContrib tt (wcOwners (setupPhase roster sm te)) k)).sum)
            (initAssociate sm te r))) := by
  simp only [anchorState, finalizeAnchor_fst, List.getElem?_map, anchorPhase_getElem?, setupPhase]
  cases hr : roster[k]? <;> simp

lemma anchorState_snd (roster : List AssociateInput) (vols : WorkVolumes) (tt : TaskTimes)
    (sm te : ℚ) :
    (anchorState roster vols tt sm te).2
      = { putaway := vols.num_putaway, stock_request := vols.num_stock_requests,
          fulfillment_minutes :=
            0 + ((anchorPhase tt vols (setupPhase roster sm te)).map overF).sum } := by
  simp only [anchorState, finalizeAnchor_snd]

/- Lemmas on the greedy pass. -/

lemma firstTask_eq_none {u : UnassignedWork} {pr : List TaskType} :
    firstTask u pr = none ↔ ∀ t ∈ pr, ¬ 0 < poolOf u t := by
  induction pr with
  | nil => simp [firstTask]
  | cons t rest ih =>
    by_cases h : 0 < poolOf u t
    · simp [firstTask, h, ih]
    · simp [firstTask, h, ih]
      intro _
      omega

lemma firstTask_eq_some {u : UnassignedWork} {pr : List TaskType} {t : TaskType}
    (h : firstTask u pr = some t) :
    ∃ pre post, pr = pre ++ t :: post ∧ (∀ x ∈ pre, ¬ 0 < poolOf u x) ∧ 0 < poolOf u t := by
  induction pr with
  | nil => simp [firstTask] at h
  | cons t0 rest ih =>
    by_cases h0 : 0 < poolOf u t0
    · simp only [firstTask, if_pos h0, Option.some.injEq] at h
      subst h
      exact ⟨[], rest, rfl, by simp, h0⟩
    · simp only [firstTask, if_neg h0] at h
      obtain ⟨pre, post, rfl, hpre, ht⟩ := ih h
      refine ⟨t0 :: pre, post, rfl, ?_, ht⟩
      intro x hx
      rcases List.mem_cons.mp hx with rfl | hx
      · exact h0
      · exact hpre x hx

lemma pickAssignment_eq_none {u : UnassignedWork} {L : List (Nat × Associate)} :
    pickAssignment u L = none ↔ ∀ p ∈ L, firstTask u p.2.priorities = none := by
  induction L with
  | nil => simp [pickAssignment]
  | cons p rest ih =>
    cases hf : firstTask u p.2.priorities with
    | some t => simp [pickAssignment, hf]
    | none => simp [pickAssignment, hf, ih]

lemma pickAssignment_eq_some {u : UnassignedWork} {L : List (Nat × Associate)} {j : Nat}
    {t : TaskType} (h : pickAssignment u L = some (j, t)) :
    ∃ pre a post, L = pre ++ (j, a) :: post ∧
      (∀ q ∈ pre, firstTask u q.2.priorities = none) ∧ firstTask u a.priorities = some t := by
  induction L with
  | nil => simp [pickAssignment] at h
  | cons p rest ih =>
    cases hf : firstTask u p.2.priorities with
    | some t0 =>
      simp only [pickAssignment, hf, Option.some.injEq, Prod.mk.injEq] at h
      refine ⟨[], p.2, rest, ?_, by simp, ?_⟩
      · rw [List.nil_append, ← h.1]
      · rw [← h.2]
        exact hf
    | none =>
      simp only [pickAssignment, hf] at h
      obtain ⟨pre, a, post, rfl, hpre, hft⟩ := ih h
      refine ⟨p :: pre, a, post, rfl, ?_, hft⟩
      intro q hq
      rcases List.mem_cons.mp hq with rfl | hq
      · exact hf
      · exact hpre q hq

lemma mem_eligibleSorted {assocs : List Associate} {p : Nat × Associate} :
    p ∈ eligibleSorted assocs
      ↔ (assocs[p.1]? = some p.2 ∧ p.2.total_work < p.2.personal_capacity) := by
  rw [eligibleSorted, (List.perm_insertionSort passLe _).mem_iff, eligiblePairs,
    List.mem_filter, mem_idxPairs_zero]
  simp

lemma sorted_eligibleSorted (assocs : List Associate) :
    List.Sorted passLe (eligibleSorted assocs) :=
  List.sorted_insertionSort passLe _

lemma greedyPass_some {tt : TaskTimes} {s s1 : List Associate × UnassignedWork}
    (h : greedyPass tt s = some s1) :
    ∃ j a t, s.1[j]? = some a ∧ a.total_work < a.personal_capacity ∧
      firstTask s.2 a.priorities = some t ∧ 0 < poolOf s.2 t ∧
      s1 = (updateAt (applyTask tt t) j s.1, decPool t s.2) := by
  rw [greedyPass] at h
  cases hp : pickAssignment s.2 (eligibleSorted s.1) with
  | none => rw [hp] at h; cases h
  | some jt =>
    obtain ⟨j, t⟩ := jt
    rw [hp] at h
    simp only [Option.some.injEq] at h
    obtain ⟨pre, a, post, hL, hpre, hft⟩ := pickAssignment_eq_some hp
    have hmem : (j, a) ∈ eligibleSorted s.1 := by
      rw [hL]
      exact List.mem_append_right _ (List.mem_cons_self _ _)
    have hma := mem_eligibleSorted.mp hmem
    obtain ⟨_, _, _, _, hpos⟩ := firstTask_eq_some hft
    exact ⟨j, a, t, hma.1, hma.2, hft, hpos, h.symm⟩

lemma greedyPass_none_of_pick {tt : TaskTimes} {s : List Associate × UnassignedWork}
    (hp : pickAssignment s.2 (eligibleSorted s.1) = none) : greedyPass tt s = none := by
  rw [greedyPass, hp]

lemma pick_of_greedyPass_none {tt : TaskTimes} {s : List Associate × UnassignedWork}
    (h : greedyPass tt s = none) : pickAssignment s.2 (eligibleSorted s.1) = none := by
  rw [greedyPass] at h
  cases hp : pickAssignment s.2 (eligibleSorted s.1) with
  | none => rfl
  | some jt =>
    obtain ⟨j, t⟩ := jt
    rw [hp] at h
    simp at h

lemma greedyPass_none {tt : TaskTimes} {s : List Associate × UnassignedWork} :
    greedyPass tt s = none
      ↔ ∀ (j : Nat) (a : Associate), s.1[j]? = some a →
          a.total_work < a.personal_capacity → firstTask s.2 a.priorities = none := by
  constructor
  · intro h j a hja helig
    exact pickAssignment_eq_none.mp (pick_of_greedyPass_none h) (j, a)
      (mem_eligibleSorted.mpr ⟨hja, helig⟩)
  · intro hall
    apply greedyPass_none_of_pick
    rw [pickAssignment_eq_none]
    intro p hp
    have hma := mem_eligibleSorted.mp hp
    exact hall p.1 p.2 hma.1 hma.2

lemma poolOf_decPool_self (t : TaskType) (u : UnassignedWork) :
    poolOf (decPool t u) t = poolOf u t - 1 := by
  cases t <;> rfl

lemma poolOf_decPool_other {t t1 : TaskType} (u : UnassignedWork) (h : t1 ≠ t) :
    poolOf (decPool t u) t1 = poolOf u t1 := by
  cases t <;> cases t1 <;> first | rfl | exact absurd rfl h

lemma fulfillment_decPool (t : TaskType) (u : UnassignedWork) :
    (decPool t u).fulfillment_minutes = u.fulfillment_minutes := by
  cases t <;> rfl

lemma poolFuel_decPool {t : TaskType} {u : UnassignedWork} (h : 0 < poolOf u t) :
    poolFuel (decPool t u) + 1 = poolFuel u := by
  cases t <;> simp only [poolOf, decPool, poolFuel] at * <;> omega

/- Unfolding lemmas for the fuelled loop. -/

lemma greedyLoop_succ_some {tt : TaskTimes} {s s1 : List Associate × UnassignedWork} {n : Nat}
    (hc : 0 < s.2.putaway ∨ 0 < s.2.stock_request) (hgp : greedyPass tt s = some s1) :
    greedyLoop tt (n + 1) s = greedyLoop tt n s1 := by
  rw [greedyLoop, if_pos hc, hgp]

lemma greedyLoop_succ_none {tt : TaskTimes} {s : List Associate × UnassignedWork} {n : Nat}
    (hgp : greedyPass tt s = none) : greedyLoop tt (n + 1) s = s := by
  by_cases hc : 0 < s.2.putaway ∨ 0 < s.2.stock_request
  · rw [greedyLoop, if_pos hc, hgp]
  · rw [greedyLoop, if_neg hc]

lemma greedyLoop_not_cond {tt : TaskTimes} {s : List Associate × UnassignedWork} {n : Nat}
    (hc : ¬ (0 < s.2.putaway ∨ 0 < s.2.stock_request)) : greedyLoop tt n s = s := by
  cases n with
  | zero => rfl
  | succ n => rw [greedyLoop, if_neg hc]

lemma greedyLoop_of_none {tt : TaskTimes} {s : List Associate × UnassignedWork}
    (hgp : greedyPass tt s = none) : ∀ n, greedyLoop tt n s = s := by
  intro n
  cases n with
  | zero => rfl
  | succ n => exact greedyLoop_succ_none hgp

lemma placedCount_succ_some {tt : TaskTimes} {t : TaskType}
    {s s1 : List Associate × UnassignedWork} {n : Nat}
    (hc : 0 < s.2.putaway ∨ 0 < s.2.stock_request) (hgp : greedyPass tt s = some s1) :
    placedCount tt t (n + 1) s
      = (if poolOf s1.2 t < poolOf s.2 t then 1 else 0) + placedCount tt t n s1 := by
  rw [placedCount, if_pos hc, hgp]

lemma placedCount_succ_none {tt : TaskTimes} {t : TaskType}
    {s : List Associate × UnassignedWork} {n : Nat}
    (hgp : greedyPass tt s = none) : placedCount tt t (n + 1) s = 0 := by
  by_cases hc : 0 < s.2.putaway ∨ 0 < s.2.stock_request
  · rw [placedCount, if_pos hc, hgp]
  · rw [placedCount, if_neg hc]

lemma placedCount_not_cond {tt : TaskTimes} {t : TaskType}
    {s : List Associate × UnassignedWork} {n : Nat}
    (hc : ¬ (0 < s.2.putaway ∨ 0 < s.2.stock_request)) : placedCount tt t n s = 0 := by
  cases n with
  | zero => rfl
  | succ n => rw [placedCount, if_neg hc]

lemma greedyLoop_fixed (tt : TaskTimes) : ∀ (n : Nat) (s : List Associate × UnassignedWork),
    poolFuel s.2 ≤ n → greedyLoop tt n s = greedyLoop tt (poolFuel s.2) s := by
  intro n
  induction n with
  | zero =>
    intro s h
    rw [Nat.le_zero.mp h]
  | succ n ih =>
    intro s h
    by_cases hc : 0 < s.2.putaway ∨ 0 < s.2.stock_request
    · have hf : 0 < poolFuel s.2 := by
        rcases hc with h1 | h1 <;> simp only [poolFuel] <;> omega
      obtain ⟨m, hm⟩ : ∃ m, poolFuel s.2 = m + 1 := ⟨poolFuel s.2 - 1, by omega⟩
      cases hgp : greedyPass tt s with
      | none =>
        rw [greedyLoop_succ_none hgp, hm, greedyLoop_succ_none hgp]
      | some s1 =>
        obtain ⟨j, a, t, _, _, _, hpos, hs1⟩ := greedyPass_some hgp
        have hpf : poolFuel s1.2 + 1 = poolFuel s.2 := by
          rw [hs1]
          exact poolFuel_decPool hpos
        rw [greedyLoop_succ_some hc hgp, hm]
        rw [greedyLoop_succ_some hc hgp]
        rw [ih s1 (by omega)]
        have hm1 : m = poolFuel s1.2 := by omega
        rw [hm1]
    · rw [greedyLoop_not_cond hc, greedyLoop_not_cond hc]

/- Pool accounting along the loop. -/

lemma poolOf_loop_placed (tt : TaskTimes) (t : TaskType) :
    ∀ (fuel : Nat) (s : List Associate × UnassignedWork),
    poolOf (greedyLoop tt fuel s).2 t + (placedCount tt t fuel s : Int) = poolOf s.2 t := by
  intro fuel
  induction fuel with
  | zero => intro s; simp [greedyLoop, placedCount]
  | succ n ih =>
    intro s
    by_cases hc : 0 < s.2.putaway ∨ 0 < s.2.stock_request
    · cases hgp : greedyPass tt s with
      | none => simp [greedyLoop_succ_none hgp, placedCount_succ_none hgp]
      | some s1 =>
        rw [greedyLoop_succ_some hc hgp, placedCount_succ_some hc hgp]
        obtain ⟨j, a, t0, _, _, _, hpos, hs1⟩ := greedyPass_some hgp
        have h1 := ih s1
        by_cases ht : t0 = t
        · subst ht
          have hdec : poolOf s1.2 t0 = poolOf s.2 t0 - 1 := by
            rw [hs1]
            exact poolOf_decPool_self t0 s.2
          rw [if_pos (by omega)]
          omega
        · have hsame : poolOf s1.2 t = poolOf s.2 t := by
            rw [hs1]
            exact poolOf_decPool_other s.2 (fun hh => ht hh.symm)
          rw [if_neg (by omega)]
          omega
    · simp [greedyLoop_not_cond hc, placedCount_not_cond hc]

lemma poolOf_loop_nonneg (tt : TaskTimes) (t : TaskType) :
    ∀ (fuel : Nat) (s : List Associate × UnassignedWork),
    0 ≤ poolOf s.2 t → 0 ≤ poolOf (greedyLoop tt fuel s).2 t := by
  intro fuel
  induction fuel with
  | zero => intro s h; exact h
  | succ n ih =>
    intro s h
    by_cases hc : 0 < s.2.putaway ∨ 0 < s.2.stock_request
    · cases hgp : greedyPass tt s with
      | none => rw [greedyLoop_succ_none hgp]; exact h
      | some s1 =>
        rw [greedyLoop_succ_some hc hgp]
        obtain ⟨j, a, t0, _, _, _, hpos, hs1⟩ := greedyPass_some hgp
        refine ih s1 ?_
        by_cases ht : t0 = t
        · subst ht
          have hdec : poolOf s1.2 t0 = poolOf s.2 t0 - 1 := by
            rw [hs1]
            exact poolOf_decPool_self t0 s.2
          omega
        · have hsame : poolOf s1.2 t = poolOf s.2 t := by
            rw [hs1]
            exact poolOf_decPool_other s.2 (fun hh => ht hh.symm)
          omega
    · rw [greedyLoop_not_cond hc]; exact h

lemma fulfillment_loop (tt : TaskTimes) :
    ∀ (fuel : Nat) (s : List Associate × UnassignedWork),
    (greedyLoop tt fuel s).2.fulfillment_minutes = s.2.fulfillment_minutes := by
  intro fuel
  induction fuel with
  | zero => intro s; rfl
  | succ n ih =>
    intro s
    by_cases hc : 0 < s.2.putaway ∨ 0 < s.2.stock_request
    · cases hgp : greedyPass tt s with
      | none => rw [greedyLoop_succ_none hgp]
      | some s1 =>
        rw [greedyLoop_succ_some hc hgp, ih s1]
        obtain ⟨j, a, t0, _, _, _, _, hs1⟩ := greedyPass_some hgp
        rw [hs1]
        exact fulfillment_decPool t0 s.2
    · rw [greedyLoop_not_cond hc]

lemma accumOf_applyTask (tt : TaskTimes) (t t0 : TaskType) (a : Associate) :
    accumOf t (applyTask tt t0 a) = accumOf t a + (if t0 = t then unitOf tt t else 0) := by
  cases t <;> cases t0 <;> simp [accumOf, applyTask, unitOf]

lemma sum_accum_loop (tt : TaskTimes) (t : TaskType) :
    ∀ (fuel : Nat) (s : List Associate × UnassignedWork),
    ((greedyLoop tt fuel s).1.map (accumOf t)).sum
      = (s.1.map (accumOf t)).sum + (placedCount tt t fuel s : ℚ) * unitOf tt t := by
  intro fuel
  induction fuel with
  | zero => intro s; simp [greedyLoop, placedCount]
  | succ n ih =>
    intro s
    by_cases hc : 0 < s.2.putaway ∨ 0 < s.2.stock_request
    · cases hgp : greedyPass tt s with
      | none => simp [greedyLoop_succ_none hgp, placedCount_succ_none hgp]
      | some s1 =>
        rw [greedyLoop_succ_some hc hgp, placedCount_succ_some hc hgp, ih s1]
        obtain ⟨j, a, t0, hja, _, _, hpos, hs1⟩ := greedyPass_some hgp
        have hsum : (s1.1.map (accumOf t)).sum
            = (s.1.map (accumOf t)).sum + (if t0 = t then unitOf tt t else 0) := by
          rw [hs1]
          rw [sum_map_updateAt (applyTask tt t0) (accumOf t) j s.1, hja]
          simp only [Option.elim_some, accumOf_applyTask]
          ring
        have hind : (if poolOf s1.2 t < poolOf s.2 t then 1 else 0)
            = (if t0 = t then 1 else 0 : Nat) := by
          by_cases ht : t0 = t
          · subst ht
            have hdec : poolOf s1.2 t0 = poolOf s.2 t0 - 1 := by
              rw [hs1]
              exact poolOf_decPool_self t0 s.2
            rw [if_pos (by omega), if_pos rfl]
          · have hsame : poolOf s1.2 t = poolOf s.2 t := by
              rw [hs1]
              exact poolOf_decPool_other s.2 (fun hh => ht hh.symm)
            rw [if_neg (by omega), if_neg ht]
        rw [hsum, hind]
        by_cases ht : t0 = t
        · simp only [if_pos ht]
          push_cast
          ring
        · simp only [if_neg ht]
          push_cast
          ring
    · simp [greedyLoop_not_cond hc, placedCount_not_cond hc]

/- Conservation of total_work through the run. -/

lemma conserved_applyTask {tt : TaskTimes} {t : TaskType} {a : Associate}
    (h : a.total_work = a.fulfillment_time + a.putaway_time + a.stock_request_time) :
    (applyTask tt t a).total_work
      = (applyTask tt t a).fulfillment_time + (applyTask tt t a).putaway_time
        + (applyTask tt t a).stock_request_time := by
  cases t <;> simp [applyTask] <;> rw [h] <;> ring

lemma conserved_loop (tt : TaskTimes) :
    ∀ (fuel : Nat) (s : List Associate × UnassignedWork),
    (∀ (k : Nat) (a : Associate), s.1[k]? = some a →
       a.total_work = a.fulfillment_time + a.putaway_time + a.stock_request_time) →
    ∀ (k : Nat) (a : Associate), (greedyLoop tt fuel s).1[k]? = some a →
       a.total_work = a.fulfillment_time + a.putaway_time + a.stock_request_time := by
  intro fuel
  induction fuel with
  | zero => intro s h; exact h
  | succ n ih =>
    intro s h
    by_cases hc : 0 < s.2.putaway ∨ 0 < s.2.stock_request
    · cases hgp : greedyPass tt s with
      | none => rw [greedyLoop_succ_none hgp]; exact h
      | some s1 =>
        rw [greedyLoop_succ_some hc hgp]
        refine ih s1 ?_
        obtain ⟨j, b, t, hjb, _, _, _, hs1⟩ := greedyPass_some hgp
        intro k a hk
        rw [hs1] at hk
        by_cases hkj : k = j
        · subst hkj
          rw [getElem?_updateAt_self, hjb] at hk
          simp only [Option.map_some', Option.some.injEq] at hk
          rw [← hk]
          exact conserved_applyTask (h k b hjb)
        · rw [getElem?_updateAt_ne _ hkj] at hk
          exact h k a hk
    · rw [greedyLoop_not_cond hc]; exact h

/- Entries at or over capacity are never touched by the loop. -/

lemma loop_preserves_capped (tt : TaskTimes) :
    ∀ (fuel : Nat) (s : List Associate × UnassignedWork) (j : Nat) (a : Associate),
    s.1[j]? = some a → a.personal_capacity ≤ a.total_work →
    (greedyLoop tt fuel s).1[j]? = some a := by
  intro fuel
  induction fuel with
  | zero => intro s j a hja _; exact hja
  | succ n ih =>
    intro s j a hja hcap
    by_cases hc : 0 < s.2.putaway ∨ 0 < s.2.stock_request
    · cases hgp : greedyPass tt s with
      | none => rw [greedyLoop_succ_none hgp]; exact hja
      | some s1 =>
        rw [greedyLoop_succ_some hc hgp]
        obtain ⟨j0, b, t, hj0, helig, _, _, hs1⟩ := greedyPass_some hgp
        have hne : j ≠ j0 := by
          intro hh
          subst hh
          rw [hja] at hj0
          cases hj0
          exact absurd helig (not_lt.mpr hcap)
        refine ih s1 j a ?_ hcap
        rw [hs1]
        rw [getElem?_updateAt_ne _ hne]
        exact hja
    · rw [greedyLoop_not_cond hc]; exact hja

/- Extra inversion: the pass together with its pick. -/

lemma greedyPass_some_pick {tt : TaskTimes} {s s1 : List Associate × UnassignedWork}
    (h : greedyPass tt s = some s1) :
    ∃ j t, pickAssignment s.2 (eligibleSorted s.1) = some (j, t) ∧
      s1 = (updateAt (applyTask tt t) j s.1, decPool t s.2) := by
  rw [greedyPass] at h
  cases hp : pickAssignment s.2 (eligibleSorted s.1) with
  | none => rw [hp] at h; cases h
  | some jt =>
    obtain ⟨j, t⟩ := jt
    rw [hp] at h
    simp only [Option.some.injEq] at h
    exact ⟨j, t, rfl, h.symm⟩

/- Field bookkeeping for the anchor pipeline. -/

lemma finishA_total (a : Associate) : (finishA a).total_work = a.fulfillment_time := by
  unfold finishA
  by_cases h : a.personal_capacity < a.fulfillment_time <;> simp [h]

lemma finishA_ful (a : Associate) : (finishA a).fulfillment_time = a.fulfillment_time := by
  unfold finishA
  by_cases h : a.personal_capacity < a.fulfillment_time <;> simp [h]

lemma finishA_put (a : Associate) : (finishA a).putaway_time = a.putaway_time := by
  unfold finishA
  by_cases h : a.personal_capacity < a.fulfillment_time <;> simp [h]

lemma finishA_stock (a : Associate) : (finishA a).stock_request_time = a.stock_request_time := by
  unfold finishA
  by_cases h : a.personal_capacity < a.fulfillment_time <;> simp [h]

lemma finishA_cap (a : Associate) : (finishA a).personal_capacity = a.personal_capacity := by
  unfold finishA
  by_cases h : a.personal_capacity < a.fulfillment_time <;> simp [h]

lemma finishA_over (a : Associate) :
    (finishA a).fulfillment_overage
      = (if a.personal_capacity < a.fulfillment_time
         then a.fulfillment_time - a.personal_capacity else a.fulfillment_overage) := by
  unfold finishA
  by_cases h : a.personal_capacity < a.fulfillment_time <;> simp [h]

lemma anchorPhase_setup_decomp {roster : List AssociateInput} {vols : WorkVolumes}
    {tt : TaskTimes} {sm te : ℚ} {k : Nat} {a : Associate}
    (h : (anchorPhase tt vols (setupPhase roster sm te))[k]? = some a) :
    ∃ r : AssociateInput, roster[k]? = some r ∧
      a = addFul ((vols.replenishment_items.map
            (zoneContrib tt (wcOwners (setupPhase roster sm te)) k)).sum)
          (initAssociate sm te r) := by
  rw [anchorPhase_getElem?] at h
  simp only [setupPhase, List.getElem?_map] at h
  cases hr : roster[k]? with
  | none => rw [hr] at h; cases h
  | some r =>
    rw [hr] at h
    simp only [Option.map_some', Option.some.injEq] at h
    exact ⟨r, rfl, h.symm⟩

lemma zoneContrib_nonneg {tt : TaskTimes} {owned : String → List Nat} {k : Nat}
    {e : String × Nat} (hpick : 0 ≤ tt.picking_time) : 0 ≤ zoneContrib tt owned k e := by
  unfold zoneContrib
  by_cases h : owned e.1 = []
  · simp [h]
  · rw [if_neg h]
    exact mul_nonneg (Nat.cast_nonneg _)
      (div_nonneg (mul_nonneg (Nat.cast_nonneg _) hpick) (Nat.cast_nonneg _))

/- String-splitting lemmas for the duration normalizer. -/

lemma floor_add_ite_eq_ceil (r : ℚ) :
    ⌊r⌋ + (if (⌊r⌋ : ℚ) < r then 1 else 0) = ⌈r⌉ := by
  by_cases hfr : (⌊r⌋ : ℚ) < r
  · rw [if_pos hfr]
    have hlt : ⌊r⌋ < ⌈r⌉ := by exact_mod_cast lt_of_lt_of_le hfr (Int.le_ceil r)
    have hle := Int.ceil_le_floor_add_one r
    omega
  · rw [if_neg hfr]
    have heq : ((⌊r⌋ : Int) : ℚ) = r := le_antisymm (Int.floor_le r) (not_lt.mp hfr)
    rw [add_zero]
    conv_rhs => rw [← heq]
    rw [Int.ceil_intCast]

/- Concrete inputs used by the witness statements. -/

def wA : AssociateInput := ⟨"A", ["Z1"], [.putaway, .stock_request], 0⟩

def wB : AssociateInput := ⟨"B", [], [.stock_request], 0⟩

def wRoster : List AssociateInput := [wA, wB]

def wVols : WorkVolumes := ⟨2, 1, [("Z1", 2)]⟩

def wTT : TaskTimes := ⟨5, 10, 7⟩

def wAfinal : Associate := ⟨"A", ["Z1"], [.putaway, .stock_request], 0, 30, 10, 20, 0, 0, 40, 40⟩

def wD : AssociateInput := ⟨"D", [], [.putaway], 0⟩

def wVolsD : WorkVolumes := ⟨1, 0, []⟩

def wDfinal : Associate := ⟨"D", [], [.putaway], 0, 10, 0, 10, 0, 0, 5, 5⟩

def wExact : Associate := ⟨"E", [], [.putaway], 0, 40, 40, 0, 0, 0, 40, 40⟩

def wU1 : UnassignedWork := ⟨1, 0, 0⟩

def wU6 : UnassignedWork := ⟨3, 1, 10⟩

/-- C3: after any allocation run, every worker in the returned roster has
total_work equal to fulfillment_time + putaway_time + stock_request_time
exactly (the spec's totalMinutes = anchorMinutes + putawayMinutes +
stockRequestMinutes invariant). -/
theorem C3_total_equals_sum (roster : List AssociateInput) (vols : WorkVolumes) (tt : TaskTimes)
    (sm te : ℚ) :
    ∀ (j : Nat) (a : Associate),
      (assign_and_balance_workload roster vols tt sm te).1[j]? = some a →
      a.total_work = a.fulfillment_time + a.putaway_time + a.stock_request_time := by
  intro j a hja
  have hja2 : (greedyLoop tt (poolFuel (anchorState roster vols tt sm te).2)
      (anchorState roster vols tt sm te)).1[j]? = some a := hja
  refine conserved_loop tt _ _ ?_ j a hja2
  intro k b hkb
  have hd := anchorState_getElem? roster vols tt sm te k
  rw [hd] at hkb
  cases hr : roster[k]? with
  | none => rw [hr] at hkb; cases hkb
  | some r =>
    rw [hr] at hkb
    simp only [Option.map_some', Option.some.injEq] at hkb
    rw [← hkb]
    rw [finishA_total, finishA_ful, finishA_put, finishA_stock]
    simp [addFul, initAssociate]

theorem C3_witness :
    (assign_and_balance_workload wRoster wVols wTT 40 100).1[0]? = some wAfinal ∧
    wAfinal.total_work
      = wAfinal.fulfillment_time + wAfinal.putaway_time + wAfinal.stock_request_time :=
  ⟨by with_unfolding_all decide,
   C3_total_equals_sum wRoster wVols wTT 40 100 0 wAfinal (by with_unfolding_all decide)⟩

/-- C4: no fungible unit is ever placed on a worker whose total_work is at
or above personal_capacity at decision time (the eligibility filter is a
strict comparison), so such a worker's record is left untouched for the
rest of the loop; a worker below capacity before a placement can still
end at or above capacity afterwards, exhibited by a concrete run. -/
theorem C4_capped_workers_frozen (tt : TaskTimes) :
    (∀ (fuel : Nat) (s : List Associate × UnassignedWork) (j : Nat) (a : Associate),
       s.1[j]? = some a → a.personal_capacity ≤ a.total_work →
       (greedyLoop tt fuel s).1[j]? = some a) ∧
    ((assign_and_balance_workload [wD] wVolsD wTT 5 100).1[0]? = some wDfinal ∧
       wDfinal.personal_capacity < wDfinal.total_work) :=
  ⟨loop_preserves_capped tt, by with_unfolding_all decide, by with_unfolding_all decide⟩

theorem C4_witness :
    wExact.personal_capacity ≤ wExact.total_work ∧
    (greedyLoop wTT 1 ([wExact], wU1)).1[0]? = some wExact :=
  ⟨by with_unfolding_all decide,
   (C4_capped_workers_frozen wTT).1 1 ([wExact], wU1) 0 wExact (by with_unfolding_all decide)
     (by with_unfolding_all decide)⟩

/-- C5: the greedy loop reaches its fixed point within
poolFuel = putawayCount.toNat + stockRequestCount.toNat passes: any fuel
at least that bound produces the run's result; each successful pass
decreases the combined pool size by exactly one, and a pass that places
nothing halts the loop immediately. -/
theorem C5_loop_termination (roster : List AssociateInput) (vols : WorkVolumes) (tt : TaskTimes)
    (sm te : ℚ) (n : Nat)
    (h : poolFuel (anchorState roster vols tt sm te).2 ≤ n) :
    greedyLoop tt n (anchorState roster vols tt sm te)
      = assign_and_balance_workload roster vols tt sm te ∧
    (∀ (s s1 : List Associate × UnassignedWork), greedyPass tt s = some s1 →
       poolFuel s1.2 + 1 = poolFuel s.2) ∧
    (∀ (s : List Associate × UnassignedWork) (fuel : Nat),
       greedyPass tt s = none → greedyLoop tt fuel s = s) := by
  refine ⟨?_, ?_, ?_⟩
  · rw [greedyLoop_fixed tt n _ h]
    rfl
  · intro s s1 hgp
    obtain ⟨j, a, t, _, _, _, hpos, hs1⟩ := greedyPass_some hgp
    rw [hs1]
    exact poolFuel_decPool hpos
  · intro s fuel hgp
    exact greedyLoop_of_none hgp fuel

theorem C5_witness :
    greedyLoop wTT 7 (anchorState wRoster wVols wTT 40 100)
      = assign_and_balance_workload wRoster wVols wTT 40 100 :=
  (C5_loop_termination wRoster wVols wTT 40 100 7 (by with_unfolding_all decide)).1

/-- C8: for non-negative inputs the headcount estimator returns the 999
sentinel exactly on a zero per-worker capacity, and otherwise the exact
ceiling of totalWorkMinutes / requiredCapacityPerWorker (an integral
ratio is returned unchanged); being a total function, it raises nothing. -/
theorem C8_headcount_ceiling (total_work_minutes shift_minutes target_efficiency : ℚ)
    (h1 : 0 ≤ total_work_minutes) (h2 : 0 ≤ shift_minutes) (h3 : 0 ≤ target_efficiency) :
    (shift_minutes * (target_efficiency / 100) = 0 →
       calculate_headcount_recommendation total_work_minutes shift_minutes target_efficiency
         = 999) ∧
    (shift_minutes * (target_efficiency / 100) ≠ 0 →
       calculate_headcount_recommendation total_work_minutes shift_minutes target_efficiency
         = ⌈total_work_minutes / (shift_minutes * (target_efficiency / 100))⌉) := by
  constructor
  · intro hcap
    have hor : shift_minutes = 0 ∨ target_efficiency = 0 := by
      rcases mul_eq_zero.mp hcap with h | h
      · exact Or.inl h
      · rcases div_eq_zero_iff.mp h with h | h
        · exact Or.inr h
        · norm_num at h
    simp only [calculate_headcount_recommendation]
    rw [if_pos hor]
  · intro hcap
    have hor : ¬ (shift_minutes = 0 ∨ target_efficiency = 0) := by
      rintro (h | h) <;> exact hcap (by rw [h]; ring)
    simp only [calculate_headcount_recommendation]
    rw [if_neg hor, if_neg hcap]
    have hcappos : 0 < shift_minutes * (target_efficiency / 100) :=
      lt_of_le_of_ne (mul_nonneg h2 (div_nonneg h3 (by norm_num))) (Ne.symm hcap)
    have hr0 : 0 ≤ total_work_minutes / (shift_minutes * (target_efficiency / 100)) :=
      div_nonneg h1 (le_of_lt hcappos)
    have hpy : pyint (total_work_minutes / (shift_minutes * (target_efficiency / 100)))
        = ⌊total_work_minutes / (shift_minutes * (target_efficiency / 100))⌋ := by
      rw [pyint, if_neg (not_lt.mpr hr0)]
    rw [hpy]
    exact floor_add_ite_eq_ceil _

lemma anchorState_fst (roster : List AssociateInput) (vols : WorkVolumes) (tt : TaskTimes)
    (sm te : ℚ) :
    (anchorState roster vols tt sm te).1
      = (anchorPhase tt vols (setupPhase roster sm te)).map finishA :=
  finalizeAnchor_fst _

lemma anchorState_accum_zero (roster : List AssociateInput) (vols : WorkVolumes) (tt : TaskTimes)
    (sm te : ℚ) (t : TaskType) :
    ((anchorState roster vols tt sm te).1.map (accumOf t)).sum = 0 := by
  have hz : ∀ a ∈ (anchorState roster vols tt sm te).1, accumOf t a = 0 := by
    intro a ha
    obtain ⟨k, hk⟩ := List.mem_iff_getElem?.mp ha
    rw [anchorState_getElem?] at hk
    cases hr : roster[k]? with
    | none => rw [hr] at hk; cases hk
    | some r =>
      rw [hr] at hk
      simp only [Option.map_some', Option.some.injEq] at hk
      rw [← hk]
      cases t
      · rw [show accumOf .putaway (finishA (addFul _ (initAssociate sm te r)))
            = (finishA (addFul _ (initAssociate sm te r))).putaway_time from rfl, finishA_put]
        simp [addFul, initAssociate]
      · rw [show accumOf .stock_request (finishA (addFul _ (initAssociate sm te r)))
            = (finishA (addFul _ (initAssociate sm te r))).stock_request_time from rfl,
          finishA_stock]
        simp [addFul, initAssociate]
  have hmap : (anchorState roster vols tt sm te).1.map (accumOf t)
      = (anchorState roster vols tt sm te).1.map (fun _ => (0 : ℚ)) :=
    List.map_congr_left hz
  rw [hmap]
  simp

/-- C7: for each fungible task kind, the remaining pool count plus the
number of placed units equals the requested count, remaining counts never
go negative, and the minutes accumulated on the roster for that kind are
exactly the placed unit count times the kind's unit minutes. -/
theorem C7_unit_conservation (roster : List AssociateInput) (vols : WorkVolumes) (tt : TaskTimes)
    (sm te : ℚ) (hp : 0 ≤ vols.num_putaway) (hs : 0 ≤ vols.num_stock_requests) :
    0 ≤ (assign_and_balance_workload roster vols tt sm te).2.putaway ∧
    0 ≤ (assign_and_balance_workload roster vols tt sm te).2.stock_request ∧
    (assign_and_balance_workload roster vols tt sm te).2.putaway
      + (placedCount tt .putaway (poolFuel (anchorState roster vols tt sm te).2)
           (anchorState roster vols tt sm te) : Int)
      = vols.num_putaway ∧
    (assign_and_balance_workload roster vols tt sm te).2.stock_request
      + (placedCount tt .stock_request (poolFuel (anchorState roster vols tt sm te).2)
           (anchorState roster vols tt sm te) : Int)
      = vols.num_stock_requests ∧
    ((assign_and_balance_workload roster vols tt sm te).1.map (accumOf .putaway)).sum
      = (placedCount tt .putaway (poolFuel (anchorState roster vols tt sm te).2)
           (anchorState roster vols tt sm te) : ℚ) * tt.putaway_time ∧
    ((assign_and_balance_workload roster vols tt sm te).1.map (accumOf .stock_request)).sum
      = (placedCount tt .stock_request (poolFuel (anchorState roster vols tt sm te).2)
           (anchorState roster vols tt sm te) : ℚ) * tt.stock_request_time := by
  refine ⟨?_, ?_, ?_, ?_, ?_, ?_⟩
  · exact poolOf_loop_nonneg tt .putaway (poolFuel (anchorState roster vols tt sm te).2)
      (anchorState roster vols tt sm te) hp
  · exact poolOf_loop_nonneg tt .stock_request (poolFuel (anchorState roster vols tt sm te).2)
      (anchorState roster vols tt sm te) hs
  · exact poolOf_loop_placed tt .putaway (poolFuel (anchorState roster vols tt sm te).2)
      (anchorState roster vols tt sm te)
  · exact poolOf_loop_placed tt .stock_request (poolFuel (anchorState roster vols tt sm te).2)
      (anchorState roster vols tt sm te)
  · have h := sum_accum_loop tt .putaway (poolFuel (anchorState roster vols tt sm te).2)
      (anchorState roster vols tt sm te)
    rw [show ((assign_and_balance_workload roster vols tt sm te).1.map (accumOf .putaway)).sum
        = ((greedyLoop tt (poolFuel (anchorState roster vols tt sm te).2)
             (anchorState roster vols tt sm te)).1.map (accumOf .putaway)).sum from rfl, h,
      anchorState_accum_zero, zero_add]
    rfl
  · have h := sum_accum_loop tt .stock_request (poolFuel (anchorState roster vols tt sm te).2)
      (anchorState roster vols tt sm te)
    rw [show ((assign_and_balance_workload roster vols tt sm te).1.map
          (accumOf .stock_request)).sum
        = ((greedyLoop tt (poolFuel (anchorState roster vols tt sm te).2)
             (anchorState roster vols tt sm te)).1.map (accumOf .stock_request)).sum from rfl, h,
      anchorState_accum_zero, zero_add]
    rfl

theorem C7_witness :
    0 ≤ wVols.num_putaway ∧
    (assign_and_balance_workload wRoster wVols wTT 40 100).2.putaway
      + (placedCount wTT .putaway (poolFuel (anchorState wRoster wVols wTT 40 100).2)
           (anchorState wRoster wVols wTT 40 100) : Int)
      = wVols.num_putaway :=
  ⟨by decide,
   (C7_unit_conservation wRoster wVols wTT 40 100 (by decide) (by decide)).2.2.1⟩

/-- C1: in every pass of the greedy allocator, eligibility is strict
(total_work < personal_capacity); exactly one unit goes to the eligible
worker that is first by ascending total_work with roster-order
tie-break among those whose priority list names a task kind with a
positive pool, taking that worker's earliest such preference: the unit
minutes land on that worker's accumulator and total_work, that pool
drops by one and everything else is unchanged; if no eligible worker
matches a non-empty pool, the pass reports nothing and the whole loop
halts in place. -/
theorem C1_greedy_pass_placement (tt : TaskTimes) (assocs : List Associate) (u : UnassignedWork) :
    (greedyPass tt (assocs, u) = none
       ↔ ∀ (j : Nat) (a : Associate), assocs[j]? = some a →
           a.total_work < a.personal_capacity → firstTask u a.priorities = none) ∧
    (greedyPass tt (assocs, u) = none →
       ∀ (n : Nat), greedyLoop tt n (assocs, u) = (assocs, u)) ∧
    (∀ s1 : List Associate × UnassignedWork, greedyPass tt (assocs, u) = some s1 →
       ∃ (j : Nat) (a : Associate) (t : TaskType) (pre post : List TaskType),
         assocs[j]? = some a ∧ a.total_work < a.personal_capacity ∧
         a.priorities = pre ++ t :: post ∧ (∀ x ∈ pre, ¬ 0 < poolOf u x) ∧ 0 < poolOf u t ∧
         (∀ (k : Nat) (b : Associate), assocs[k]? = some b →
            b.total_work < b.personal_capacity → (∃ x ∈ b.priorities, 0 < poolOf u x) →
            a.total_work < b.total_work ∨ (a.total_work = b.total_work ∧ j ≤ k)) ∧
         s1.1[j]? = some (applyTask tt t a) ∧
         (∀ k : Nat, k ≠ j → s1.1[k]? = assocs[k]?) ∧
         s1.1.length = assocs.length ∧
         poolOf s1.2 t = poolOf u t - 1 ∧
         (∀ t1 : TaskType, t1 ≠ t → poolOf s1.2 t1 = poolOf u t1) ∧
         s1.2.fulfillment_minutes = u.fulfillment_minutes) := by
  refine ⟨greedyPass_none, fun h n => greedyLoop_of_none h n, ?_⟩
  intro s1 h
  obtain ⟨j, t, hp, hs1⟩ := greedyPass_some_pick h
  obtain ⟨preL, a, postL, hL, hpreL, hft⟩ := pickAssignment_eq_some hp
  have hmem : (j, a) ∈ eligibleSorted assocs := by
    rw [hL]
    exact List.mem_append_right _ (List.mem_cons_self _ _)
  have hma := mem_eligibleSorted.mp hmem
  obtain ⟨pre, post, hprio, hpre, hpos⟩ := firstTask_eq_some hft
  refine ⟨j, a, t, pre, post, hma.1, hma.2, hprio, hpre, hpos, ?_, ?_, ?_, ?_, ?_, ?_, ?_⟩
  · intro k b hkb heligb hassign
    have hkmem : (k, b) ∈ eligibleSorted assocs := mem_eligibleSorted.mpr ⟨hkb, heligb⟩
    rw [hL] at hkmem
    rcases List.mem_append.mp hkmem with hkpre | hkrest
    · exfalso
      have hnone := hpreL (k, b) hkpre
      obtain ⟨x, hx, hxpos⟩ := hassign
      exact absurd hxpos (firstTask_eq_none.mp hnone x hx)
    · rcases List.mem_cons.mp hkrest with heq | hkpost
      · have hk1 : k = j := congrArg Prod.fst heq
        have hk2 : b = a := congrArg Prod.snd heq
        subst hk1
        subst hk2
        exact Or.inr ⟨rfl, le_refl _⟩
      · have hsort := sorted_eligibleSorted assocs
        rw [hL] at hsort
        have hpw := List.pairwise_append.mp hsort
        have hrel : passLe (j, a) (k, b) := (List.pairwise_cons.mp hpw.2.1).1 (k, b) hkpost
        exact hrel
  · rw [hs1]
    show (updateAt (applyTask tt t) j assocs)[j]? = some (applyTask tt t a)
    rw [getElem?_updateAt_self, hma.1]
    rfl
  · intro k hk
    rw [hs1]
    show (updateAt (applyTask tt t) j assocs)[k]? = assocs[k]?
    exact getElem?_updateAt_ne _ hk assocs
  · rw [hs1]
    exact updateAt_length _ _ _
  · rw [hs1]
    exact poolOf_decPool_self t u
  · intro t1 ht1
    rw [hs1]
    exact poolOf_decPool_other u ht1
  · rw [hs1]
    exact fulfillment_decPool t u

theorem C1_witness :
    greedyPass wTT ([wExact], wU1) = none ∧
    greedyLoop wTT 5 ([wExact], wU1) = ([wExact], wU1) :=
  ⟨by with_unfolding_all decide,
   (C1_greedy_pass_placement wTT [wExact] wU1).2.1 (by with_unfolding_all decide) 5⟩

/-- C2: the fixed-ownership pass adds items * picking_time / ownerCount to
the anchor minutes of every owner of every owned zone (equal fractional
split, no rounding, never capped, never redirected); afterwards each
worker's total_work equals their anchor minutes, overage is recorded as
total_work - personal_capacity exactly when capacity is exceeded, and
the run's overflow accumulator is the sum of all workers' overages. -/
theorem C2_fixed_ownership (tt : TaskTimes) (vols : WorkVolumes) (roster : List AssociateInput)
    (sm te : ℚ) (hN : ∀ r ∈ roster, r.workcenters.Nodup) :
    (∀ (j : Nat) (r : AssociateInput), roster[j]? = some r →
       ∃ a1 afin : Associate,
         (anchorPhase tt vols (setupPhase roster sm te))[j]? = some a1 ∧
         (finalizeAnchor (anchorPhase tt vols (setupPhase roster sm te))).1[j]? = some afin ∧
         a1.fulfillment_time
           = (vols.replenishment_items.map (fun e =>
               if wcOwners (setupPhase roster sm te) e.1 = [] then 0
               else if e.1 ∈ r.workcenters then
                 ((e.2 : ℚ) * tt.picking_time)
                   / ((wcOwners (setupPhase roster sm te) e.1).length : ℚ)
               else 0)).sum ∧
         afin.fulfillment_time = a1.fulfillment_time ∧
         afin.total_work = a1.fulfillment_time ∧
         afin.personal_capacity = a1.personal_capacity ∧
         afin.fulfillment_overage
           = (if afin.personal_capacity < afin.total_work
              then afin.total_work - afin.personal_capacity else 0)) ∧
    (finalizeAnchor (anchorPhase tt vols (setupPhase roster sm te))).2
      = ((finalizeAnchor (anchorPhase tt vols (setupPhase roster sm te))).1.map
          (fun a => a.fulfillment_overage)).sum ∧
    (anchorState roster vols tt sm te).2.fulfillment_minutes
      = 0 + (finalizeAnchor (anchorPhase tt vols (setupPhase roster sm te))).2 := by
  refine ⟨?_, ?_, rfl⟩
  · intro j r hjr
    have hA0 : (setupPhase roster sm te)[j]? = some (initAssociate sm te r) := by
      rw [setupPhase, List.getElem?_map, hjr]
      rfl
    have hA1 : (anchorPhase tt vols (setupPhase roster sm te))[j]?
        = some (addFul ((vols.replenishment_items.map
             (zoneContrib tt (wcOwners (setupPhase roster sm te)) j)).sum)
            (initAssociate sm te r)) := by
      rw [anchorPhase_getElem?, hA0]
      rfl
    have hF : (finalizeAnchor (anchorPhase tt vols (setupPhase roster sm te))).1[j]?
        = some (finishA (addFul ((vols.replenishment_items.map
             (zoneContrib tt (wcOwners (setupPhase roster sm te)) j)).sum)
            (initAssociate sm te r))) := by
      rw [finalizeAnchor_fst, List.getElem?_map, hA1]
      rfl
    refine ⟨_, _, hA1, hF, ?_, finishA_ful _, finishA_total _, finishA_cap _, ?_⟩
    · show (initAssociate sm te r).fulfillment_time
          + (vols.replenishment_items.map
              (zoneContrib tt (wcOwners (setupPhase roster sm te)) j)).sum = _
      rw [show (initAssociate sm te r).fulfillment_time = 0 from rfl, zero_add]
      have hcongr : ∀ e ∈ vols.replenishment_items,
          zoneContrib tt (wcOwners (setupPhase roster sm te)) j e
            = (if wcOwners (setupPhase roster sm te) e.1 = [] then 0
               else if e.1 ∈ r.workcenters then
                 ((e.2 : ℚ) * tt.picking_time)
                   / ((wcOwners (setupPhase roster sm te) e.1).length : ℚ)
               else 0) := by
        intro e he
        unfold zoneContrib
        by_cases hown : wcOwners (setupPhase roster sm te) e.1 = []
        · rw [if_pos hown, if_pos hown]
        · rw [if_neg hown, if_neg hown]
          have hocc : occ j (wcOwners (setupPhase roster sm te) e.1)
              = occWc e.1 r.workcenters := by
            rw [occ_wcOwners, hA0]
            rfl
          have hrmem : r ∈ roster := List.mem_iff_getElem?.mpr ⟨j, hjr⟩
          rw [hocc, occWc_nodup (hN r hrmem)]
          by_cases hmem : e.1 ∈ r.workcenters
          · rw [if_pos hmem, if_pos hmem]
            push_cast
            ring
          · rw [if_neg hmem, if_neg hmem]
            push_cast
            ring
      rw [List.map_congr_left hcongr]
    · rw [finishA_over, finishA_cap, finishA_total]
      by_cases hcase : (addFul ((vols.replenishment_items.map
            (zoneContrib tt (wcOwners (setupPhase roster sm te)) j)).sum)
          (initAssociate sm te r)).personal_capacity
          < (addFul ((vols.replenishment_items.map
              (zoneContrib tt (wcOwners (setupPhase roster sm te)) j)).sum)
            (initAssociate sm te r)).fulfillment_time
      · rw [if_pos hcase, if_pos hcase]
      · rw [if_neg hcase, if_neg hcase]
        rfl
  · rw [finalizeAnchor_snd, finalizeAnchor_fst, List.map_map]
    have hcongr : ∀ b ∈ anchorPhase tt vols (setupPhase roster sm te),
        overF b = ((fun a => a.fulfillment_overage) ∘ finishA) b := by
      intro b hb
      obtain ⟨k, hk⟩ := List.mem_iff_getElem?.mp hb
      obtain ⟨r0, hr0, rfl⟩ := anchorPhase_setup_decomp hk
      simp only [Function.comp_apply, finishA_over, overF]
      by_cases hcase : (addFul ((vols.replenishment_items.map
            (zoneContrib tt (wcOwners (setupPhase roster sm te)) k)).sum)
          (initAssociate sm te r0)).personal_capacity
          < (addFul ((vols.replenishment_items.map
              (zoneContrib tt (wcOwners (setupPhase roster sm te)) k)).sum)
            (initAssociate sm te r0)).fulfillment_time
      · rw [if_pos hcase, if_pos hcase]
      · rw [if_neg hcase, if_neg hcase]
        rfl
    rw [List.map_congr_left hcongr]

theorem C2_witness :
    (finalizeAnchor (anchorPhase wTT wVols (setupPhase wRoster 40 100))).2
      = ((finalizeAnchor (anchorPhase wTT wVols (setupPhase wRoster 40 100))).1.map
          (fun a => a.fulfillment_overage)).sum :=
  (C2_fixed_ownership wTT wVols wRoster 40 100 (by with_unfolding_all decide)).2.1

/-- C6: the carryover conversion keeps both fungible pool counts
unchanged; when the picking rate is not positive it carries no zone
items; otherwise the carried items are exactly the workcenters whose
proportional share unitsShort * items / totalItems exceeds the 0.01-unit
epsilon, carrying that exact fractional share, where unitsShort is
anchorOverflowMinutes / anchor_unit_minutes. -/
theorem C6_carryover_conversion (u : UnassignedWork) (vols : WorkVolumes) (tt : TaskTimes) :
    (carryover u vols tt).num_putaway = u.putaway ∧
    (carryover u vols tt).num_stock_requests = u.stock_request ∧
    (¬ 0 < tt.picking_time → (carryover u vols tt).replenishment_items = []) ∧
    (0 < tt.picking_time →
      ((vols.replenishment_items.map (fun e => e.2)).sum = 0 →
         (carryover u vols tt).replenishment_items = []) ∧
      (∀ (wc : String) (q : ℚ),
         (wc, q) ∈ (carryover u vols tt).replenishment_items ↔
           ∃ n : Nat, (wc, n) ∈ vols.replenishment_items ∧
             q = (u.fulfillment_minutes / tt.picking_time)
                   * ((n : ℚ) / (((vols.replenishment_items.map (fun e => e.2)).sum : Nat) : ℚ))
             ∧ 1 / 100 < q)) := by
  refine ⟨rfl, rfl, ?_, ?_⟩
  · intro hpick
    simp only [carryover]
    rw [if_neg hpick]
  · intro hpick
    constructor
    · intro htot
      simp only [carryover]
      rw [if_pos hpick, if_neg (by omega)]
    · intro wc q
      by_cases htot : 0 < (vols.replenishment_items.map (fun e => e.2)).sum
      · have hitems : (carryover u vols tt).replenishment_items
            = vols.replenishment_items.filterMap (fun e =>
                if 1 / 100 < (u.fulfillment_minutes / tt.picking_time)
                    * ((e.2 : ℚ) / (((vols.replenishment_items.map (fun e => e.2)).sum : Nat) : ℚ))
                then some (e.1, (u.fulfillment_minutes / tt.picking_time)
                    * ((e.2 : ℚ) / (((vols.replenishment_items.map (fun e => e.2)).sum : Nat) : ℚ)))
                else none) := by
          simp only [carryover]
          rw [if_pos hpick, if_pos htot]
        rw [hitems, List.mem_filterMap]
        constructor
        · rintro ⟨e, he, hfe⟩
          by_cases hcase : 1 / 100 < (u.fulfillment_minutes / tt.picking_time)
              * ((e.2 : ℚ) / (((vols.replenishment_items.map (fun x => x.2)).sum : Nat) : ℚ))
          · rw [if_pos hcase] at hfe
            simp only [Option.some.injEq, Prod.mk.injEq] at hfe
            refine ⟨e.2, ?_, hfe.2.symm, ?_⟩
            · rw [← hfe.1]
              exact he
            · rw [← hfe.2]
              exact hcase
          · rw [if_neg hcase] at hfe
            cases hfe
        · rintro ⟨n, hn, hq, hqe⟩
          refine ⟨(wc, n), hn, ?_⟩
          rw [if_pos (by rw [← hq]; exact hqe)]
          rw [hq]
      · have htz : (vols.replenishment_items.map (fun e => e.2)).sum = 0 := by omega
        have hitems : (carryover u vols tt).replenishment_items = [] := by
          simp only [carryover]
          rw [if_pos hpick, if_neg htot]
        rw [hitems]
        simp only [List.not_mem_nil, false_iff, not_exists]
        intro n hmem
        rcases hmem with ⟨_, hq, hqe⟩
        rw [hq, htz] at hqe
        norm_num at hqe

theorem C6_witness :
    (carryover wU6 wVols wTT).num_putaway = wU6.putaway ∧
    (carryover wU6 wVols wTT).num_stock_requests = wU6.stock_request :=
  ⟨(C6_carryover_conversion wU6 wVols wTT).1, (C6_carryover_conversion wU6 wVols wTT).2.1⟩

/-- C9: with a zero target efficiency or a zero base shift length, every
worker's personal capacity is 0, the run is total (no exception), both
fungible pools end fully unassigned, and every worker's whole anchor
workload is counted as overage, flooding the overflow accumulator with
the sum of all anchor minutes. -/
theorem C9_zero_capacity (roster : List AssociateInput) (vols : WorkVolumes) (tt : TaskTimes)
    (sm te : ℚ) (hz : te = 0 ∨ sm = 0) (hpick : 0 ≤ tt.picking_time) :
    (∀ (j : Nat) (a : Associate),
       (assign_and_balance_workload roster vols tt sm te).1[j]? = some a →
       a.personal_capacity = 0 ∧ a.total_work = a.fulfillment_time ∧
       a.fulfillment_overage = a.fulfillment_time) ∧
    (assign_and_balance_workload roster vols tt sm te).2.putaway = vols.num_putaway ∧
    (assign_and_balance_workload roster vols tt sm te).2.stock_request
      = vols.num_stock_requests ∧
    (assign_and_balance_workload roster vols tt sm te).2.fulfillment_minutes
      = (((assign_and_balance_workload roster vols tt sm te).1).map
          (fun a => a.fulfillment_time)).sum := by
  have hcap0 : ∀ q : ℚ, (sm * (1 + q / 100)) * (te / 100) = 0 := by
    intro q
    rcases hz with h | h <;> rw [h] <;> ring
  have hA1 : ∀ (k : Nat) (b : Associate),
      (anchorPhase tt vols (setupPhase roster sm te))[k]? = some b →
      b.personal_capacity = 0 ∧ 0 ≤ b.fulfillment_time ∧ b.fulfillment_overage = 0 := by
    intro k b hk
    obtain ⟨r, hr, rfl⟩ := anchorPhase_setup_decomp hk
    refine ⟨?_, ?_, ?_⟩
    · show (initAssociate sm te r).personal_capacity = 0
      simp only [initAssociate]
      exact hcap0 r.overtime_pct
    · show (0 : ℚ) ≤ (initAssociate sm te r).fulfillment_time + _
      simp only [initAssociate]
      rw [zero_add]
      apply List.sum_nonneg
      intro x hx
      obtain ⟨e, he, rfl⟩ := List.mem_map.mp hx
      exact zoneContrib_nonneg hpick
    · rfl
  have hS : ∀ (k : Nat) (a : Associate),
      (anchorState roster vols tt sm te).1[k]? = some a →
      a.personal_capacity = 0 ∧ a.total_work = a.fulfillment_time ∧
      a.fulfillment_overage = a.fulfillment_time ∧ 0 ≤ a.fulfillment_time := by
    intro k a hk
    rw [anchorState_fst, List.getElem?_map] at hk
    cases hk1 : (anchorPhase tt vols (setupPhase roster sm te))[k]? with
    | none => rw [hk1] at hk; cases hk
    | some b =>
      rw [hk1] at hk
      simp only [Option.map_some', Option.some.injEq] at hk
      obtain ⟨hcap, hful, hover⟩ := hA1 k b hk1
      rw [← hk]
      refine ⟨?_, ?_, ?_, ?_⟩
      · rw [finishA_cap]; exact hcap
      · rw [finishA_total, finishA_ful]
      · rw [finishA_over, finishA_ful, hcap]
        by_cases h0 : (0 : ℚ) < b.fulfillment_time
        · rw [if_pos h0, sub_zero]
        · rw [if_neg h0, hover]
          exact (le_antisymm (not_lt.mp h0) hful).symm
      · rw [finishA_ful]; exact hful
  have hpass : greedyPass tt (anchorState roster vols tt sm te) = none := by
    rw [greedyPass_none]
    intro j a hja helig
    obtain ⟨hcap, htot, _, hful⟩ := hS j a hja
    rw [hcap, htot] at helig
    exact absurd helig (not_lt.mpr hful)
  have hloop : assign_and_balance_workload roster vols tt sm te
      = anchorState roster vols tt sm te :=
    greedyLoop_of_none hpass _
  refine ⟨?_, ?_, ?_, ?_⟩
  · intro j a hja
    rw [hloop] at hja
    obtain ⟨hcap, htot, hover, _⟩ := hS j a hja
    exact ⟨hcap, htot, hover⟩
  · rw [hloop]; rfl
  · rw [hloop]; rfl
  · rw [hloop]
    have h2 : (anchorState roster vols tt sm te).2.fulfillment_minutes
        = 0 + ((anchorPhase tt vols (setupPhase roster sm te)).map overF).sum := by
      rw [show (anchorState roster vols tt sm te).2.fulfillment_minutes
          = 0 + (finalizeAnchor (anchorPhase tt vols (setupPhase roster sm te))).2 from rfl,
        finalizeAnchor_snd]
    rw [h2, zero_add, anchorState_fst, List.map_map]
    have hcongr : ∀ b ∈ anchorPhase tt vols (setupPhase roster sm te),
        overF b = ((fun a => a.fulfillment_time) ∘ finishA) b := by
      intro b hb
      obtain ⟨k, hk⟩ := List.mem_iff_getElem?.mp hb
      obtain ⟨hcap, hful, _⟩ := hA1 k b hk
      simp only [Function.comp_apply, finishA_ful, overF, hcap]
      by_cases h0 : (0 : ℚ) < b.fulfillment_time
      · rw [if_pos h0, sub_zero]
      · rw [if_neg h0]
        exact (le_antisymm (not_lt.mp h0) hful).symm
    rw [List.map_congr_left hcongr]

theorem C9_witness :
    ((0 : ℚ) = 0 ∨ (40 : ℚ) = 0) ∧
    (assign_and_balance_workload wRoster wVols wTT 40 0).2.putaway = wVols.num_putaway :=
  ⟨Or.inl rfl,
   (C9_zero_capacity wRoster wVols wTT 40 0 (Or.inl rfl) (by norm_num [wTT])).2.1⟩

theorem C8_witness :
    (40 : ℚ) * (100 / 100) ≠ 0 ∧
    calculate_headcount_recommendation 100 40 100 = ⌈(100 : ℚ) / (40 * (100 / 100))⌉ ∧
    calculate_headcount_recommendation 100 40 100 = 3 :=
  ⟨by norm_num,
   (C8_headcount_ceiling 100 40 100 (by norm_num) (by norm_num) (by norm_num)).2 (by norm_num),
   by with_unfolding_all decide⟩

end Planner
